import Mathlib

/-!
Verification of the carpe-diem-service core pipeline: event time normalization
(models.py), recurrence expansion and overlap filtering (eds.py), content-based
event identity and deduplication (models.py / eds.py), and the greedy
gap-filling timeline resolver (scheduler.py).

Python datetimes are modelled as a wall-clock value (microseconds) together
with a timezone tag.  `TzInfo.utc` stands for any tzinfo object comparing equal
to `dt.UTC` (a fixed offset of zero); `TzInfo.zone o` stands for any other
tzinfo whose current UTC offset is `o` minutes; `TzInfo.naive` is a missing
tzinfo.  The process-local timezone, obtained in the code via
`datetime.now().astimezone().tzinfo`, is a fixed-offset zone, hence equals
`dt.UTC` exactly when the local offset is zero.

The timeline resolver only ever handles timezone-aware datetimes in the single
local zone (events are normalized by the pydantic validator before reaching
it), and on such values Python's `+ timedelta`, `max` and comparisons agree
with the corresponding integer operations on instants; the scheduler embedding
therefore represents each datetime by its instant, measured in minutes.
-/

namespace CarpeDiem

/-! ### Datetimes (models.py) -/

inductive TzInfo
  | naive
  | utc
  | zone (offsetMin : Int)
deriving DecidableEq

structure PyDateTime where
  wall : Int
  tz : TzInfo
deriving DecidableEq

/-- Microseconds per minute. -/
def usPerMin : Int := 60000000

/-- Microseconds per second. -/
def usPerSec : Int := 1000000

/-- Microseconds per day. -/
def usPerDay : Int := 86400000000

/-- The tzinfo produced by `datetime.now().astimezone().tzinfo`: a fixed-offset
zone, which compares equal to `dt.UTC` exactly when the offset is zero. -/
def localTzOf (localOff : Int) : TzInfo :=
  if localOff = 0 then .utc else .zone localOff

/-- The instant (microseconds since the epoch) denoted by an aware datetime;
`none` for a naive one. -/
def PyDateTime.instantOf : PyDateTime → Option Int
  | ⟨_, .naive⟩ => none
  | ⟨w, .utc⟩ => some w
  | ⟨w, .zone o⟩ => some (w - o * usPerMin)

/-- Python's `v.astimezone(local_tz)` where `local_tz` is the fixed-offset
local zone: an aware value is converted preserving its instant; a naive value
is interpreted as local wall-clock time and tagged. -/
def PyDateTime.astimezoneLocal (localOff : Int) (v : PyDateTime) : PyDateTime :=
  match v.tz with
  | .naive => ⟨v.wall, localTzOf localOff⟩
  | .utc => ⟨v.wall + localOff * usPerMin, localTzOf localOff⟩
  | .zone o => ⟨v.wall - o * usPerMin + localOff * usPerMin, localTzOf localOff⟩

/-- models.py `CalendarEventSchema.fix_lying_outlook_timezone`: a UTC-tagged
value is retagged with the local zone keeping its wall-clock fields; any other
value goes through `astimezone(local_tz)`. -/
def fix_lying_outlook_timezone (localOff : Int) (v : PyDateTime) : PyDateTime :=
  if v.tz = .utc then ⟨v.wall, localTzOf localOff⟩
  else v.astimezoneLocal localOff

/-- Python `==` between datetimes: naive compares equal only to naive with the
same wall clock; aware values compare by instant. -/
def pyDtEq (a b : PyDateTime) : Bool :=
  match a.tz, b.tz with
  | .naive, .naive => a.wall == b.wall
  | .naive, _ => false
  | _, .naive => false
  | _, _ => a.instantOf == b.instantOf

/-! ### Event schema, equality, hash (models.py) -/

structure CalendarEventSchema where
  id : String
  title : String
  start_time : PyDateTime
  end_time : PyDateTime
  source_id : String
deriving DecidableEq

/-- Constructing a `CalendarEventSchema` runs the pydantic field validator
`fix_lying_outlook_timezone` on both timestamps. -/
def mkCalendarEventSchema (localOff : Int) (id title : String)
    (s e : PyDateTime) (source_id : String) : CalendarEventSchema :=
  ⟨id, title, fix_lying_outlook_timezone localOff s,
    fix_lying_outlook_timezone localOff e, source_id⟩

/-- models.py `CalendarEventSchema.__eq__`: title, start and end only. -/
def eventEq (a b : CalendarEventSchema) : Bool :=
  (a.title == b.title) && pyDtEq a.start_time b.start_time
    && pyDtEq a.end_time b.end_time

/-- `strftime` with format `%d%m%Y%H:%M:%S` is an injective function of the
wall-clock fields truncated to whole seconds; we record that truncation. -/
def strftimeToSecond (v : PyDateTime) : Int :=
  v.wall.fdiv usPerSec

/-- models.py `CalendarEventSchema.__hash__` hashes the string
`f"{title}_{start_str}_{end_str}"`; since Python's string hash is a function of
the string, we model the string itself. -/
def eventHashKey (e : CalendarEventSchema) : String :=
  e.title ++ "_" ++ toString (strftimeToSecond e.start_time)
    ++ "_" ++ toString (strftimeToSecond e.end_time)

/-- Adding an element to a Python `set`: it is kept out exactly when some
existing member has the same hash and compares equal (first-seen wins). -/
def pySetAdd (s : List CalendarEventSchema) (e : CalendarEventSchema) :
    List CalendarEventSchema :=
  if s.any (fun x => (eventHashKey x == eventHashKey e) && eventEq x e)
  then s else s ++ [e]

/-! ### Recurrence expansion (eds.py `fetch_events`) -/

/-- eds.py lines 191-197: a bare date is combined with midnight and tagged
UTC.  `day` is the date as a day index; the result's wall clock is midnight of
that day. -/
def edsNormalizeDate (day : Int) : PyDateTime :=
  ⟨day * usPerDay, .utc⟩

/-- eds.py lines 199-200: a naive datetime is tagged UTC, an aware one kept. -/
def edsNormalizeDatetime (v : PyDateTime) : PyDateTime :=
  if v.tz = .naive then ⟨v.wall, .utc⟩ else v

/-- The outcome of the dateutil rrule construction plus `rule.between` for one
event, which is external library code: `none` when the event carries no RRULE,
`some (.error ())` when rule parsing or expansion raised, `some (.ok recs)`
when it returned the candidate occurrence starts `recs` (as instants). -/
abbrev RRuleOutcome := Option (Except Unit (List Int))

/-- eds.py lines 202-264: the occurrence instances kept for one VEVENT, over
instants.  With a successful rule expansion each candidate start is kept only
if `rec_start < dt_end_query and rec_end > dt_start_query`; if expansion
raised, or no rule is present, the single base occurrence is appended. -/
def expandInstances (winStart winEnd baseS baseE : Int)
    (rruleRes : RRuleOutcome) : List (Int × Int) :=
  let duration := baseE - baseS
  match rruleRes with
  | some (.ok recurrences) =>
      recurrences.filterMap fun recStart =>
        let recEnd := recStart + duration
        if recStart < winEnd ∧ recEnd > winStart then some (recStart, recEnd)
        else none
  | some (.error _) => [(baseS, baseE)]
  | none => [(baseS, baseE)]

structure VEvent where
  uid : String
  summary : String
  baseS : Int
  baseE : Int
  rruleRes : RRuleOutcome

/-- The per-VEVENT loop of `fetch_events`: each event contributes its expanded
instances (tagged with its uid); a failure inside one event's expansion is
caught there and does not affect the others. -/
def processVEvents (winStart winEnd : Int) (evs : List VEvent) :
    List (String × Int × Int) :=
  evs.flatMap fun v =>
    (expandInstances winStart winEnd v.baseS v.baseE v.rruleRes).map
      fun p => (v.uid, p.1, p.2)

/-! ### Tasks and timeline items (models.py) -/

inductive TaskSource
  | LOCAL
  | EVOLUTION
  | GITHUB
deriving DecidableEq

structure Task where
  id : String
  title : String
  completed : Bool
  source : TaskSource
  parent_event_id : Option String
  time_spent_seconds : Int
  is_active : Bool
deriving DecidableEq

inductive ItemType
  | EVENT_FOLDER
  | GAP_TASK
deriving DecidableEq

end CarpeDiem

namespace CarpeDiem.Scheduler

/-- The resolver's view of an event: timestamps are instants in minutes (all
scheduler datetimes are aware and share the local zone). -/
structure CalendarEventSchema where
  id : String
  title : String
  start_time : Int
  end_time : Int
  source_id : String
deriving DecidableEq

structure TimelineItem where
  item_type : ItemType
  title : String
  start_time : Int
  end_time : Option Int
  nested_tasks : List Task
  source_id : Option String
deriving DecidableEq

/-- The GapTask item appended inside the gap-filling loops of
`resolve_timeline`. -/
def mkGapItem (t : Task) (current dur : Int) : TimelineItem :=
  ⟨.GAP_TASK, t.title, current, some (current + dur), [t], none⟩

/-- The EventFolder item appended for an event: its nested tasks are all input
tasks whose `parent_event_id` equals the event's id (scheduler.py line 48). -/
def mkEventFolder (ev : CalendarEventSchema) (all_tasks : List Task) :
    TimelineItem :=
  ⟨.EVENT_FOLDER, ev.title, ev.start_time, some ev.end_time,
    all_tasks.filter (fun t => t.parent_event_id == some ev.id), some ev.id⟩

/-- scheduler.py line 19: standalone tasks have no parent and are not
completed. -/
def isStandalone (t : Task) : Bool :=
  t.parent_event_id == none && !t.completed

/-- The `while` loop before one event (scheduler.py lines 32-45): pop tasks
from the front while the next GapTask plus cushion still fits before the
event; returns the emitted items, the final cursor, and the remaining queue. -/
def fillGaps (cushion dur evStart : Int) :
    List Task → Int → List TimelineItem × Int × List Task
  | [], current => ([], current, [])
  | t :: ts, current =>
      if current + dur + cushion ≤ evStart then
        let r := fillGaps cushion dur evStart ts (current + dur + cushion)
        (mkGapItem t current dur :: r.1, r.2.1, r.2.2)
      else ([], current, t :: ts)

/-- The final loop of `resolve_timeline` (lines 64-74): append every remaining
standalone task after the last event. -/
def drainTasks (cushion dur : Int) : List Task → Int → List TimelineItem
  | [], _ => []
  | t :: ts, current =>
      mkGapItem t current dur :: drainTasks cushion dur ts (current + dur + cushion)

/-- The main event loop of `resolve_timeline` (lines 29-61) followed by the
drain: fill gaps before each event, emit its folder, and advance the cursor to
`max(current_time, event.end_time + cushion)`. -/
def processEvents (cushion dur : Int) (all_tasks : List Task) :
    List CalendarEventSchema → Int → List Task → List TimelineItem
  | [], current, standalone => drainTasks cushion dur standalone current
  | ev :: evs, current, standalone =>
      let r := fillGaps cushion dur ev.start_time standalone current
      r.1 ++ mkEventFolder ev all_tasks ::
        processEvents cushion dur all_tasks evs
          (max r.2.1 (ev.end_time + cushion)) r.2.2

/-- Python's `sorted(events, key=lambda x: x.start_time)` comparison. -/
def startLe (a b : CalendarEventSchema) : Prop :=
  a.start_time ≤ b.start_time

instance : DecidableRel startLe :=
  fun a b => inferInstanceAs (Decidable (a.start_time ≤ b.start_time))

instance : IsTotal CalendarEventSchema startLe :=
  ⟨fun a b => Int.le_total a.start_time b.start_time⟩

instance : IsTrans CalendarEventSchema startLe :=
  ⟨fun _ _ _ h1 h2 => Int.le_trans h1 h2⟩

/-- scheduler.py `resolve_timeline`.  `now` is the instant read from
`datetime.now().astimezone()`; durations are in minutes, matching
`timedelta(minutes=...)`.  Python's `sorted` is a stable sort by
`start_time`, modelled by stable insertion sort. -/
def resolve_timeline (now : Int) (events : List CalendarEventSchema)
    (all_tasks : List Task) (cushion_mins : Int := 5)
    (default_task_duration : Int := 15) : List TimelineItem :=
  let standalone_tasks := all_tasks.filter isStandalone
  let sorted_events := events.insertionSort startLe
  processEvents cushion_mins default_task_duration all_tasks
    sorted_events now standalone_tasks

/-- The tasks carried by the GapTask items of a timeline, in order. -/
def gapTasksOf (items : List TimelineItem) : List Task :=
  (items.filter fun i => i.item_type == ItemType.GAP_TASK).flatMap
    (fun i => i.nested_tasks)

/-- A lower bound on the start of every item the event loop can emit from
cursor `cur` with the events `evs` still pending: the earliest of the cursor
and the first pending event start. -/
def evsLB (cur : Int) : List CalendarEventSchema → Int
  | [] => cur
  | ev :: _ => min cur ev.start_time

end CarpeDiem.Scheduler

namespace CarpeDiem

/-! ### Ambient state (for purity / determinism claims) -/

/-- The ambient process state a run can observe: the instant returned by
`datetime.now()`, the configured local timezone offset, and a counter standing
for every other piece of mutable process state. -/
structure Env where
  nowInstant : Int
  localOff : Int
  tick : Nat

/-- The Event Normalizer as invoked at runtime: it reads the local timezone
from the environment. -/
def normalizerRun (env : Env) (v : PyDateTime) : PyDateTime :=
  fix_lying_outlook_timezone env.localOff v

/-- The Recurrence Expander as invoked at runtime (reads nothing from the
environment). -/
def expanderRun (_env : Env) (winStart winEnd baseS baseE : Int)
    (r : RRuleOutcome) : List (Int × Int) :=
  expandInstances winStart winEnd baseS baseE r

/-- Dedup as invoked at runtime (reads nothing from the environment). -/
def dedupRun (_env : Env) (s : List CalendarEventSchema)
    (e : CalendarEventSchema) : List CalendarEventSchema :=
  pySetAdd s e

/-- The Timeline Resolver as invoked at runtime: it reads `datetime.now()`
from the environment. -/
def resolverRun (env : Env) (events : List Scheduler.CalendarEventSchema)
    (tasks : List Task) (cushion_mins default_task_duration : Int) :
    List Scheduler.TimelineItem :=
  Scheduler.resolve_timeline env.nowInstant events tasks cushion_mins
    default_task_duration

end CarpeDiem

namespace CarpeDiem

/-! ### Normalizer and identity lemmas -/

/-- The validator always tags its output with the local zone. -/
theorem fix_lying_tz (lo : Int) (v : PyDateTime) :
    (fix_lying_outlook_timezone lo v).tz = localTzOf lo := by
  cases v with
  | mk w tz =>
    cases tz <;> simp [fix_lying_outlook_timezone, PyDateTime.astimezoneLocal]

/-- Two datetimes tagged with the same local zone that compare equal under
Python `==` have the same wall clock. -/
theorem wall_eq_of_pyDtEq_local (lo : Int) (a b : PyDateTime)
    (ha : a.tz = localTzOf lo) (hb : b.tz = localTzOf lo)
    (h : pyDtEq a b = true) : a.wall = b.wall := by
  cases a with
  | mk wa ta =>
    cases b with
    | mk wb tb =>
      simp only [localTzOf] at ha hb
      by_cases h0 : lo = 0 <;>
        simp only [h0, if_true, if_false, if_pos, if_neg, not_false_iff] at ha hb <;>
        simp_all [pyDtEq, PyDateTime.instantOf] <;> omega

/-- Validated events that compare equal have equal hash strings. -/
theorem eventHashKey_eq_of_eventEq (lo : Int) (id1 t1 : String)
    (s1 e1 : PyDateTime) (src1 : String) (id2 t2 : String)
    (s2 e2 : PyDateTime) (src2 : String)
    (h : eventEq (mkCalendarEventSchema lo id1 t1 s1 e1 src1)
          (mkCalendarEventSchema lo id2 t2 s2 e2 src2) = true) :
    eventHashKey (mkCalendarEventSchema lo id1 t1 s1 e1 src1)
      = eventHashKey (mkCalendarEventSchema lo id2 t2 s2 e2 src2) := by
  simp only [eventEq, mkCalendarEventSchema, Bool.and_eq_true, beq_iff_eq] at h
  obtain ⟨⟨htitle, hstart⟩, hend⟩ := h
  have hws := wall_eq_of_pyDtEq_local lo _ _ (fix_lying_tz lo s1)
    (fix_lying_tz lo s2) hstart
  have hwe := wall_eq_of_pyDtEq_local lo _ _ (fix_lying_tz lo e1)
    (fix_lying_tz lo e2) hend
  simp [eventHashKey, strftimeToSecond, mkCalendarEventSchema, htitle, hws, hwe]

/-- C8: per instant, a UTC-tagged datetime is retagged with the local zone
keeping its wall-clock fields; a datetime carrying any other timezone is
converted to the local zone preserving its instant; a bare date (normalized by
eds.py to UTC-tagged midnight) ends up as local midnight of that date. -/
theorem claim_C8_time_normalization (localOff : Int) :
    (∀ w : Int, fix_lying_outlook_timezone localOff ⟨w, .utc⟩
        = ⟨w, localTzOf localOff⟩)
    ∧ (∀ w o : Int,
        (fix_lying_outlook_timezone localOff ⟨w, .zone o⟩).tz = localTzOf localOff
        ∧ (fix_lying_outlook_timezone localOff ⟨w, .zone o⟩).instantOf
            = PyDateTime.instantOf ⟨w, .zone o⟩)
    ∧ (∀ day : Int, fix_lying_outlook_timezone localOff (edsNormalizeDate day)
        = ⟨day * usPerDay, localTzOf localOff⟩) := by
  refine ⟨fun w => ?_, fun w o => ⟨fix_lying_tz localOff _, ?_⟩, fun day => ?_⟩
  · simp [fix_lying_outlook_timezone]
  · simp only [fix_lying_outlook_timezone, PyDateTime.astimezoneLocal, localTzOf]
    by_cases h0 : localOff = 0 <;>
      simp [h0, PyDateTime.instantOf] <;> omega
  · simp [edsNormalizeDate, fix_lying_outlook_timezone]

/-- C5: equal validated events (same title, same start instant, same end
instant under the overridden equality) produce identical hash strings. -/
theorem claim_C5_hash_agrees_with_equality (lo : Int) (id1 t1 : String)
    (s1 e1 : PyDateTime) (src1 : String) (id2 t2 : String)
    (s2 e2 : PyDateTime) (src2 : String)
    (h : eventEq (mkCalendarEventSchema lo id1 t1 s1 e1 src1)
          (mkCalendarEventSchema lo id2 t2 s2 e2 src2) = true) :
    eventHashKey (mkCalendarEventSchema lo id1 t1 s1 e1 src1)
      = eventHashKey (mkCalendarEventSchema lo id2 t2 s2 e2 src2) :=
  eventHashKey_eq_of_eventEq lo id1 t1 s1 e1 src1 id2 t2 s2 e2 src2 h

/-- Witness for C5 at a concrete pair: same content, different ids and zones
(one UTC-tagged, one naive, with local offset 0). -/
theorem claim_C5_hash_agrees_with_equality_witness :
    eventEq (mkCalendarEventSchema 0 "id1" "Standup" ⟨3000000, .utc⟩
        ⟨5000000, .utc⟩ "calA")
      (mkCalendarEventSchema 0 "id2" "Standup" ⟨3000000, .naive⟩
        ⟨5000000, .naive⟩ "calB") = true
    ∧ eventHashKey (mkCalendarEventSchema 0 "id1" "Standup" ⟨3000000, .utc⟩
        ⟨5000000, .utc⟩ "calA")
      = eventHashKey (mkCalendarEventSchema 0 "id2" "Standup" ⟨3000000, .naive⟩
        ⟨5000000, .naive⟩ "calB") :=
  ⟨by decide,
   claim_C5_hash_agrees_with_equality 0 "id1" "Standup" ⟨3000000, .utc⟩
     ⟨5000000, .utc⟩ "calA" "id2" "Standup" ⟨3000000, .naive⟩
     ⟨5000000, .naive⟩ "calB" (by decide)⟩

/-- C4: two validated event occurrences with equal title and equal start and
end instants but different ids compare equal and collapse to exactly one entry
(the first seen) in the deduplicating set; and any two events differing in
title, start, or end do not compare equal. -/
theorem claim_C4_content_identity_dedup (lo : Int)
    (id1 id2 src1 src2 title : String) (s1 e1 s2 e2 : PyDateTime)
    (hid : id1 ≠ id2)
    (hs : pyDtEq (fix_lying_outlook_timezone lo s1)
        (fix_lying_outlook_timezone lo s2) = true)
    (he : pyDtEq (fix_lying_outlook_timezone lo e1)
        (fix_lying_outlook_timezone lo e2) = true) :
    eventEq (mkCalendarEventSchema lo id1 title s1 e1 src1)
        (mkCalendarEventSchema lo id2 title s2 e2 src2) = true
    ∧ pySetAdd (pySetAdd [] (mkCalendarEventSchema lo id1 title s1 e1 src1))
        (mkCalendarEventSchema lo id2 title s2 e2 src2)
        = [mkCalendarEventSchema lo id1 title s1 e1 src1]
    ∧ (∀ f1 f2 : CalendarEventSchema,
        f1.title ≠ f2.title ∨ pyDtEq f1.start_time f2.start_time = false
          ∨ pyDtEq f1.end_time f2.end_time = false →
        eventEq f1 f2 = false) := by
  have heq : eventEq (mkCalendarEventSchema lo id1 title s1 e1 src1)
      (mkCalendarEventSchema lo id2 title s2 e2 src2) = true := by
    simp [eventEq, mkCalendarEventSchema, hs, he]
  have hhash := eventHashKey_eq_of_eventEq lo id1 title s1 e1 src1 id2 title
    s2 e2 src2 heq
  refine ⟨heq, ?_, ?_⟩
  · simp [pySetAdd, heq, hhash]
  · intro f1 f2 h
    by_contra hne
    rw [Bool.not_eq_false] at hne
    simp only [eventEq, Bool.and_eq_true, beq_iff_eq] at hne
    obtain ⟨⟨ht, hst⟩, hen⟩ := hne
    rcases h with h | h | h
    · exact h ht
    · rw [hst] at h; cases h
    · rw [hen] at h; cases h

/-- Witness for C4 at a concrete pair: same content from two sources with
different ids. -/
theorem claim_C4_content_identity_dedup_witness :
    "id1" ≠ "id2"
    ∧ pyDtEq (fix_lying_outlook_timezone 60 ⟨3000000, .utc⟩)
        (fix_lying_outlook_timezone 60 ⟨3000000, .utc⟩) = true
    ∧ pySetAdd (pySetAdd []
        (mkCalendarEventSchema 60 "id1" "Standup" ⟨3000000, .utc⟩
          ⟨5000000, .utc⟩ "calA"))
        (mkCalendarEventSchema 60 "id2" "Standup" ⟨3000000, .utc⟩
          ⟨5000000, .utc⟩ "calB")
        = [mkCalendarEventSchema 60 "id1" "Standup" ⟨3000000, .utc⟩
            ⟨5000000, .utc⟩ "calA"] :=
  ⟨by decide, by decide,
   (claim_C4_content_identity_dedup 60 "id1" "id2" "calA" "calB" "Standup"
     ⟨3000000, .utc⟩ ⟨5000000, .utc⟩ ⟨3000000, .utc⟩ ⟨5000000, .utc⟩
     (by decide) (by decide) (by decide)).2.1⟩

/-- Counterexample to C6 as stated: a non-recurring event whose base
occurrence lies entirely before the query window `[100, 200)` is still
emitted, so not every emitted occurrence passes the strict overlap test. -/
theorem claim_C6_counterexample :
    (0, 50) ∈ expandInstances 100 200 0 50 none
    ∧ ¬((0 : Int) < 200 ∧ (50 : Int) > 100) := by
  decide

/-- C6 amended: every occurrence emitted by a successful recurrence-rule
expansion strictly overlaps the window under
`rec_start < window_end ∧ rec_end > window_start` (so boundary-touching
candidates are excluded), while an event with no recurrence rule, or whose
expansion fails, is emitted as its single base occurrence with no overlap
check. -/
theorem claim_C6_recurrence_overlap (winStart winEnd baseS baseE : Int) :
    (∀ recurrences : List Int, ∀ s e : Int,
        (s, e) ∈ expandInstances winStart winEnd baseS baseE
          (some (.ok recurrences)) →
        s < winEnd ∧ e > winStart)
    ∧ expandInstances winStart winEnd baseS baseE none = [(baseS, baseE)]
    ∧ expandInstances winStart winEnd baseS baseE (some (.error ()))
        = [(baseS, baseE)] := by
  refine ⟨?_, rfl, rfl⟩
  intro recurrences s e h
  simp only [expandInstances, List.mem_filterMap] at h
  obtain ⟨a, _, hif⟩ := h
  split at hif
  · rename_i hc
    cases hif
    exact hc
  · cases hif

/-- Witness for C6 amended: the candidate start 150 with duration 50 overlaps
the window `[100, 200)` and is emitted. -/
theorem claim_C6_recurrence_overlap_witness :
    (150, 200) ∈ expandInstances 100 200 0 50 (some (.ok [150]))
    ∧ ((150 : Int) < 200 ∧ (200 : Int) > 100) :=
  ⟨by decide,
   (claim_C6_recurrence_overlap 100 200 0 50).1 [150] 150 200 (by decide)⟩

/-- C7: an event whose recurrence expansion raises contributes exactly its
single base occurrence, and the events before and after it in the run are
processed exactly as they would be on their own. -/
theorem claim_C7_rrule_failure_fallback (winStart winEnd : Int)
    (pre suf : List VEvent) (v : VEvent)
    (h : v.rruleRes = some (.error ())) :
    processVEvents winStart winEnd (pre ++ v :: suf)
      = processVEvents winStart winEnd pre
        ++ (v.uid, v.baseS, v.baseE) :: processVEvents winStart winEnd suf := by
  simp [processVEvents, List.flatMap_append, List.flatMap_cons, expandInstances, h]

/-- Witness for C7 at a concrete run: the second event's expansion raised. -/
theorem claim_C7_rrule_failure_fallback_witness :
    (VEvent.mk "b" "B" 3 4 (some (.error ()))).rruleRes = some (.error ())
    ∧ processVEvents 0 10
        ([VEvent.mk "a" "A" 1 2 none] ++ VEvent.mk "b" "B" 3 4 (some (.error ())) :: [])
      = processVEvents 0 10 [VEvent.mk "a" "A" 1 2 none]
        ++ ("b", 3, 4) :: processVEvents 0 10 [] :=
  ⟨rfl, claim_C7_rrule_failure_fallback 0 10 [VEvent.mk "a" "A" 1 2 none] []
    (VEvent.mk "b" "B" 3 4 (some (.error ()))) rfl⟩

/-- C9: each core component reads at most the reference now-instant and the
configured local timezone from the ambient process state; two runs over
environments agreeing on those (but differing in any other state) produce
identical outputs. -/
theorem claim_C9_pure_determinism (env1 env2 : Env)
    (hnow : env1.nowInstant = env2.nowInstant)
    (hloc : env1.localOff = env2.localOff) :
    (∀ v, normalizerRun env1 v = normalizerRun env2 v)
    ∧ (∀ winStart winEnd baseS baseE r,
        expanderRun env1 winStart winEnd baseS baseE r
          = expanderRun env2 winStart winEnd baseS baseE r)
    ∧ (∀ s e, dedupRun env1 s e = dedupRun env2 s e)
    ∧ (∀ events tasks cushion_mins default_task_duration,
        resolverRun env1 events tasks cushion_mins default_task_duration
          = resolverRun env2 events tasks cushion_mins default_task_duration) := by
  refine ⟨fun v => ?_, fun a b c d r => rfl, fun s e => rfl, fun a b c d => ?_⟩
  · simp [normalizerRun, hloc]
  · simp [resolverRun, hnow]

/-- Witness for C9: two environments equal on now and local offset but with
different residual state give the same normalizer and resolver outputs. -/
theorem claim_C9_pure_determinism_witness :
    normalizerRun ⟨0, 0, 0⟩ ⟨5, .naive⟩ = normalizerRun ⟨0, 0, 1⟩ ⟨5, .naive⟩
    ∧ resolverRun ⟨0, 0, 0⟩ [] [] 5 15 = resolverRun ⟨0, 0, 1⟩ [] [] 5 15 :=
  ⟨(claim_C9_pure_determinism ⟨0, 0, 0⟩ ⟨0, 0, 1⟩ rfl rfl).1 ⟨5, .naive⟩,
   (claim_C9_pure_determinism ⟨0, 0, 0⟩ ⟨0, 0, 1⟩ rfl rfl).2.2.2 [] [] 5 15⟩

namespace Scheduler

/-! ### Resolver lemmas -/

theorem fillGaps_nil (c d es cur : Int) :
    fillGaps c d es [] cur = ([], cur, []) := rfl

theorem fillGaps_cons_pos (c d es cur : Int) (t : Task) (ts : List Task)
    (h : cur + d + c ≤ es) :
    fillGaps c d es (t :: ts) cur
      = (mkGapItem t cur d :: (fillGaps c d es ts (cur + d + c)).1,
         (fillGaps c d es ts (cur + d + c)).2.1,
         (fillGaps c d es ts (cur + d + c)).2.2) := by
  rw [fillGaps]
  simp [h]

theorem fillGaps_cons_neg (c d es cur : Int) (t : Task) (ts : List Task)
    (h : ¬ (cur + d + c ≤ es)) :
    fillGaps c d es (t :: ts) cur = ([], cur, t :: ts) := by
  rw [fillGaps]
  simp [h]

theorem gapTasksOf_nil : gapTasksOf [] = [] := rfl

theorem gapTasksOf_cons (i : TimelineItem) (l : List TimelineItem) :
    gapTasksOf (i :: l)
      = (if i.item_type = ItemType.GAP_TASK then i.nested_tasks else [])
        ++ gapTasksOf l := by
  by_cases h : i.item_type = ItemType.GAP_TASK <;>
    simp [gapTasksOf, List.filter_cons, h]

theorem gapTasksOf_append (l1 l2 : List TimelineItem) :
    gapTasksOf (l1 ++ l2) = gapTasksOf l1 ++ gapTasksOf l2 := by
  simp [gapTasksOf, List.filter_append]

/-- The gap-filling loop conserves the standalone queue: the tasks carried by
the emitted items followed by the remaining queue are the input queue. -/
theorem fillGaps_tasks (c d es : Int) (ts : List Task) : ∀ cur : Int,
    gapTasksOf (fillGaps c d es ts cur).1 ++ (fillGaps c d es ts cur).2.2 = ts := by
  induction ts with
  | nil => intro cur; simp [fillGaps_nil, gapTasksOf_nil]
  | cons t ts ih =>
      intro cur
      by_cases h : cur + d + c ≤ es
      · rw [fillGaps_cons_pos c d es cur t ts h]
        simp [gapTasksOf_cons, mkGapItem, ih (cur + d + c)]
      · rw [fillGaps_cons_neg c d es cur t ts h]
        simp [gapTasksOf_nil]

/-- Every item emitted by the gap-filling loop is a GapTask that satisfied the
guard `current + task_dur + cushion <= event.start_time`, spans
`[start, start + task_dur)`, and carries exactly one task. -/
theorem fillGaps_shape (c d es : Int) (ts : List Task) : ∀ cur : Int,
    ∀ it ∈ (fillGaps c d es ts cur).1,
      it.item_type = ItemType.GAP_TASK ∧ it.start_time + d + c ≤ es
        ∧ it.end_time = some (it.start_time + d)
        ∧ ∃ t, it.nested_tasks = [t] := by
  induction ts with
  | nil => intro cur it h; simp [fillGaps_nil] at h
  | cons t ts ih =>
      intro cur it h
      by_cases hc : cur + d + c ≤ es
      · rw [fillGaps_cons_pos c d es cur t ts hc] at h
        rcases List.mem_cons.mp h with h | h
        · subst h
          exact ⟨rfl, hc, rfl, t, rfl⟩
        · exact ih (cur + d + c) it h
      · rw [fillGaps_cons_neg c d es cur t ts hc] at h
        simp at h

/-- With a nonnegative step, emitted gap items start no earlier than the
cursor. -/
theorem fillGaps_lb (c d es : Int) (hdc : 0 ≤ d + c) (ts : List Task) :
    ∀ cur : Int, ∀ it ∈ (fillGaps c d es ts cur).1, cur ≤ it.start_time := by
  induction ts with
  | nil => intro cur it h; simp [fillGaps_nil] at h
  | cons t ts ih =>
      intro cur it h
      by_cases hc : cur + d + c ≤ es
      · rw [fillGaps_cons_pos c d es cur t ts hc] at h
        rcases List.mem_cons.mp h with h | h
        · subst h; exact le_refl _
        · have := ih (cur + d + c) it h
          omega
      · rw [fillGaps_cons_neg c d es cur t ts hc] at h
        simp at h

/-- With a nonnegative step, the cursor never moves backward. -/
theorem fillGaps_cursor_le (c d es : Int) (hdc : 0 ≤ d + c) (ts : List Task) :
    ∀ cur : Int, cur ≤ (fillGaps c d es ts cur).2.1 := by
  induction ts with
  | nil => intro cur; simp [fillGaps_nil]
  | cons t ts ih =>
      intro cur
      by_cases hc : cur + d + c ≤ es
      · rw [fillGaps_cons_pos c d es cur t ts hc]
        have := ih (cur + d + c)
        simp only []
        omega
      · rw [fillGaps_cons_neg c d es cur t ts hc]

/-- The emitted gap items are in nondecreasing start order. -/
theorem fillGaps_chain (c d es : Int) (hdc : 0 ≤ d + c) (ts : List Task) :
    ∀ cur : Int,
      List.Chain' (fun a b => a.start_time ≤ b.start_time)
        (fillGaps c d es ts cur).1 := by
  induction ts with
  | nil => intro cur; simp [fillGaps_nil]
  | cons t ts ih =>
      intro cur
      by_cases hc : cur + d + c ≤ es
      · rw [fillGaps_cons_pos c d es cur t ts hc]
        refine List.chain'_cons'.mpr ⟨?_, ih (cur + d + c)⟩
        intro y hy
        have hmem := List.mem_of_mem_head? hy
        have := fillGaps_lb c d es hdc ts (cur + d + c) y hmem
        simp only [mkGapItem]
        omega
      · rw [fillGaps_cons_neg c d es cur t ts hc]
        simp

theorem drainTasks_nil (c d cur : Int) : drainTasks c d [] cur = [] := rfl

theorem drainTasks_cons (c d cur : Int) (t : Task) (ts : List Task) :
    drainTasks c d (t :: ts) cur
      = mkGapItem t cur d :: drainTasks c d ts (cur + d + c) := rfl

/-- The drain loop emits exactly the remaining queue, in order. -/
theorem drainTasks_tasks (c d : Int) (ts : List Task) : ∀ cur : Int,
    gapTasksOf (drainTasks c d ts cur) = ts := by
  induction ts with
  | nil => intro cur; simp [drainTasks_nil, gapTasksOf_nil]
  | cons t ts ih =>
      intro cur
      rw [drainTasks_cons, gapTasksOf_cons]
      simp [mkGapItem, ih (cur + d + c)]

/-- Every drained item is a GapTask spanning `[start, start + task_dur)` and
carrying exactly one task. -/
theorem drainTasks_shape (c d : Int) (ts : List Task) : ∀ cur : Int,
    ∀ it ∈ drainTasks c d ts cur,
      it.item_type = ItemType.GAP_TASK
        ∧ it.end_time = some (it.start_time + d)
        ∧ ∃ t, it.nested_tasks = [t] := by
  induction ts with
  | nil => intro cur it h; simp [drainTasks_nil] at h
  | cons t ts ih =>
      intro cur it h
      rw [drainTasks_cons] at h
      rcases List.mem_cons.mp h with h | h
      · subst h; exact ⟨rfl, rfl, t, rfl⟩
      · exact ih (cur + d + c) it h

/-- With a nonnegative step, drained items start no earlier than the cursor. -/
theorem drainTasks_lb (c d : Int) (hdc : 0 ≤ d + c) (ts : List Task) :
    ∀ cur : Int, ∀ it ∈ drainTasks c d ts cur, cur ≤ it.start_time := by
  induction ts with
  | nil => intro cur it h; simp [drainTasks_nil] at h
  | cons t ts ih =>
      intro cur it h
      rw [drainTasks_cons] at h
      rcases List.mem_cons.mp h with h | h
      · subst h; exact le_refl _
      · have := ih (cur + d + c) it h
        omega

/-- Drained items are in nondecreasing start order. -/
theorem drainTasks_chain (c d : Int) (hdc : 0 ≤ d + c) (ts : List Task) :
    ∀ cur : Int,
      List.Chain' (fun a b => a.start_time ≤ b.start_time)
        (drainTasks c d ts cur) := by
  induction ts with
  | nil => intro cur; simp [drainTasks_nil]
  | cons t ts ih =>
      intro cur
      rw [drainTasks_cons]
      refine List.chain'_cons'.mpr ⟨?_, ih (cur + d + c)⟩
      intro y hy
      have hmem := List.mem_of_mem_head? hy
      have := drainTasks_lb c d hdc ts (cur + d + c) y hmem
      simp only [mkGapItem]
      omega

theorem processEvents_nil (c d : Int) (all_tasks : List Task) (cur : Int)
    (st : List Task) :
    processEvents c d all_tasks [] cur st = drainTasks c d st cur := rfl

theorem processEvents_cons (c d : Int) (all_tasks : List Task)
    (ev : CalendarEventSchema) (evs : List CalendarEventSchema) (cur : Int)
    (st : List Task) :
    processEvents c d all_tasks (ev :: evs) cur st
      = (fillGaps c d ev.start_time st cur).1
        ++ mkEventFolder ev all_tasks ::
          processEvents c d all_tasks evs
            (max (fillGaps c d ev.start_time st cur).2.1 (ev.end_time + c))
            (fillGaps c d ev.start_time st cur).2.2 := by
  rw [processEvents]

/-- The resolver output carries exactly the standalone queue in its GapTask
items, in order: nothing is dropped and nothing is duplicated. -/
theorem processEvents_gapTasks (c d : Int) (all_tasks : List Task)
    (evs : List CalendarEventSchema) : ∀ (cur : Int) (st : List Task),
    gapTasksOf (processEvents c d all_tasks evs cur st) = st := by
  induction evs with
  | nil => intro cur st; rw [processEvents_nil]; exact drainTasks_tasks c d st cur
  | cons ev evs ih =>
      intro cur st
      rw [processEvents_cons, gapTasksOf_append, gapTasksOf_cons]
      have hfolder : (mkEventFolder ev all_tasks).item_type = ItemType.EVENT_FOLDER := rfl
      rw [ih]
      simp [hfolder, mkEventFolder]
      exact fillGaps_tasks c d ev.start_time st cur

/-- Every GapTask item of the resolver output spans
`[start, start + task_dur)` and carries exactly one task. -/
theorem processEvents_gap_shape (c d : Int) (all_tasks : List Task)
    (evs : List CalendarEventSchema) : ∀ (cur : Int) (st : List Task),
    ∀ it ∈ processEvents c d all_tasks evs cur st,
      it.item_type = ItemType.GAP_TASK →
      it.end_time = some (it.start_time + d) ∧ ∃ t, it.nested_tasks = [t] := by
  induction evs with
  | nil =>
      intro cur st it h hty
      rw [processEvents_nil] at h
      exact (drainTasks_shape c d st cur it h).2
  | cons ev evs ih =>
      intro cur st it h hty
      rw [processEvents_cons] at h
      rcases List.mem_append.mp h with h | h
      · obtain ⟨_, _, he, hn⟩ := fillGaps_shape c d ev.start_time st cur it h
        exact ⟨he, hn⟩
      · rcases List.mem_cons.mp h with h | h
        · rw [h] at hty
          cases hty
        · exact ih _ _ it h hty

/-- With nonnegative durations, every GapTask item of the resolver output
starts no earlier than the cursor. -/
theorem processEvents_gap_lb (c d : Int) (hdc : 0 ≤ d + c)
    (all_tasks : List Task) (evs : List CalendarEventSchema) :
    ∀ (cur : Int) (st : List Task),
    ∀ it ∈ processEvents c d all_tasks evs cur st,
      it.item_type = ItemType.GAP_TASK → cur ≤ it.start_time := by
  induction evs with
  | nil =>
      intro cur st it h hty
      rw [processEvents_nil] at h
      exact drainTasks_lb c d hdc st cur it h
  | cons ev evs ih =>
      intro cur st it h hty
      rw [processEvents_cons] at h
      rcases List.mem_append.mp h with h | h
      · exact fillGaps_lb c d ev.start_time hdc st cur it h
      · rcases List.mem_cons.mp h with h | h
        · rw [h] at hty
          cases hty
        · have h1 := ih _ _ it h hty
          have h2 := fillGaps_cursor_le c d ev.start_time hdc st cur
          have h3 := le_max_left (fillGaps c d ev.start_time st cur).2.1
            (ev.end_time + c)
          omega

/-- Every EventFolder item of the resolver output is the folder of one of the
input events. -/
theorem processEvents_folder (c d : Int) (all_tasks : List Task)
    (evs : List CalendarEventSchema) : ∀ (cur : Int) (st : List Task),
    ∀ it ∈ processEvents c d all_tasks evs cur st,
      it.item_type = ItemType.EVENT_FOLDER →
      ∃ ev ∈ evs, it = mkEventFolder ev all_tasks := by
  induction evs with
  | nil =>
      intro cur st it h hty
      rw [processEvents_nil] at h
      have := (drainTasks_shape c d st cur it h).1
      rw [this] at hty
      cases hty
  | cons ev evs ih =>
      intro cur st it h hty
      rw [processEvents_cons] at h
      rcases List.mem_append.mp h with h | h
      · have := (fillGaps_shape c d ev.start_time st cur it h).1
        rw [this] at hty
        cases hty
      · rcases List.mem_cons.mp h with h | h
        · exact ⟨ev, List.mem_cons_self ev evs, h⟩
        · obtain ⟨ev2, hm, heq⟩ := ih _ _ it h hty
          exact ⟨ev2, List.mem_cons_of_mem ev hm, heq⟩

/-- After processing an event the cursor is at least the event's start. -/
theorem ev_start_le_cursor (c r21 : Int) (ev : CalendarEventSchema)
    (hc : 0 ≤ c) (hend : ev.start_time ≤ ev.end_time) :
    ev.start_time ≤ max r21 (ev.end_time + c) := by
  have := le_max_right r21 (ev.end_time + c)
  omega

/-- The first pending event's start is a lower bound for the remaining run. -/
theorem ev_start_le_evsLB (c r21 : Int) (ev : CalendarEventSchema)
    (evs : List CalendarEventSchema) (hc : 0 ≤ c)
    (hend : ev.start_time ≤ ev.end_time)
    (hpair : ∀ e ∈ evs, ev.start_time ≤ e.start_time) :
    ev.start_time ≤ evsLB (max r21 (ev.end_time + c)) evs := by
  cases evs with
  | nil => exact ev_start_le_cursor c r21 ev hc hend
  | cons e2 evs2 =>
      exact le_min (ev_start_le_cursor c r21 ev hc hend)
        (hpair e2 (List.mem_cons_self e2 evs2))

/-- Every item of the resolver output starts no earlier than the minimum of
the cursor and the first pending event start. -/
theorem processEvents_all_lb (c d : Int) (hc : 0 ≤ c) (hd : 0 ≤ d)
    (all_tasks : List Task) :
    ∀ (evs : List CalendarEventSchema),
      (∀ e ∈ evs, e.start_time ≤ e.end_time) →
      evs.Pairwise (fun a b => a.start_time ≤ b.start_time) →
      ∀ (cur : Int) (st : List Task),
      ∀ it ∈ processEvents c d all_tasks evs cur st,
        evsLB cur evs ≤ it.start_time := by
  intro evs
  induction evs with
  | nil =>
      intro _ _ cur st it h
      rw [processEvents_nil] at h
      exact drainTasks_lb c d (by omega) st cur it h
  | cons ev evs ih =>
      intro hends hsort cur st it h
      obtain ⟨hp, hsort2⟩ := List.pairwise_cons.mp hsort
      have hend : ev.start_time ≤ ev.end_time :=
        hends ev (List.mem_cons_self ev evs)
      have hlb1 : evsLB cur (ev :: evs) ≤ cur := min_le_left _ _
      have hlb2 : evsLB cur (ev :: evs) ≤ ev.start_time := min_le_right _ _
      rw [processEvents_cons] at h
      rcases List.mem_append.mp h with h | h
      · have := fillGaps_lb c d ev.start_time (by omega) st cur it h
        omega
      · rcases List.mem_cons.mp h with h | h
        · rw [h]
          exact hlb2
        · have hrest := ih (fun e he => hends e (List.mem_cons_of_mem ev he))
            hsort2 _ _ it h
          have := ev_start_le_evsLB c (fillGaps c d ev.start_time st cur).2.1
            ev evs hc hend hp
          omega

/-- The resolver output is in nondecreasing start order. -/
theorem processEvents_chain (c d : Int) (hc : 0 ≤ c) (hd : 0 ≤ d)
    (all_tasks : List Task) :
    ∀ (evs : List CalendarEventSchema),
      (∀ e ∈ evs, e.start_time ≤ e.end_time) →
      evs.Pairwise (fun a b => a.start_time ≤ b.start_time) →
      ∀ (cur : Int) (st : List Task),
      List.Chain' (fun a b => a.start_time ≤ b.start_time)
        (processEvents c d all_tasks evs cur st) := by
  intro evs
  induction evs with
  | nil =>
      intro _ _ cur st
      rw [processEvents_nil]
      exact drainTasks_chain c d (by omega) st cur
  | cons ev evs ih =>
      intro hends hsort cur st
      obtain ⟨hp, hsort2⟩ := List.pairwise_cons.mp hsort
      have hend : ev.start_time ≤ ev.end_time :=
        hends ev (List.mem_cons_self ev evs)
      have hends2 : ∀ e ∈ evs, e.start_time ≤ e.end_time :=
        fun e he => hends e (List.mem_cons_of_mem ev he)
      rw [processEvents_cons, List.chain'_append]
      refine ⟨fillGaps_chain c d ev.start_time (by omega) st cur, ?_, ?_⟩
      · refine List.chain'_cons'.mpr ⟨?_, ih hends2 hsort2 _ _⟩
        intro y hy
        have hmem := List.mem_of_mem_head? hy
        have hlb := processEvents_all_lb c d hc hd all_tasks evs hends2
          hsort2 _ _ y hmem
        have := ev_start_le_evsLB c (fillGaps c d ev.start_time st cur).2.1
          ev evs hc hend hp
        show (mkEventFolder ev all_tasks).start_time ≤ y.start_time
        simp only [mkEventFolder]
        omega
      · intro x hx y hy
        have hxm : x ∈ (fillGaps c d ev.start_time st cur).1 :=
          List.mem_of_getLast?_eq_some (Option.mem_def.mp hx)
        have hyf : y = mkEventFolder ev all_tasks :=
          (by simpa using Option.mem_def.mp hy :
            mkEventFolder ev all_tasks = y).symm
        obtain ⟨_, hguard, _, _⟩ := fillGaps_shape c d ev.start_time st cur x hxm
        rw [hyf]
        show x.start_time ≤ (mkEventFolder ev all_tasks).start_time
        simp only [mkEventFolder]
        omega

/-- No GapTask item of the resolver output overlaps any EventFolder item;
they are separated by at least the cushion. -/
theorem processEvents_disjoint (c d : Int) (hc : 0 ≤ c) (hd : 0 ≤ d)
    (all_tasks : List Task) :
    ∀ (evs : List CalendarEventSchema),
      evs.Pairwise (fun a b => a.start_time ≤ b.start_time) →
      ∀ (cur : Int) (st : List Task) (g f : TimelineItem),
      g ∈ processEvents c d all_tasks evs cur st →
      f ∈ processEvents c d all_tasks evs cur st →
      g.item_type = ItemType.GAP_TASK → f.item_type = ItemType.EVENT_FOLDER →
      ∀ ge fe : Int, g.end_time = some ge → f.end_time = some fe →
      ge + c ≤ f.start_time ∨ fe + c ≤ g.start_time := by
  intro evs
  induction evs with
  | nil =>
      intro _ cur st g f hg hf hgt hft ge fe hge hfe
      rw [processEvents_nil] at hf
      have := (drainTasks_shape c d st cur f hf).1
      rw [this] at hft
      cases hft
  | cons ev evs ih =>
      intro hsort cur st g f hg hf hgt hft ge fe hge hfe
      obtain ⟨hp, hsort2⟩ := List.pairwise_cons.mp hsort
      rw [processEvents_cons] at hg hf
      rcases List.mem_append.mp hf with hf1 | hf2
      · have := (fillGaps_shape c d ev.start_time st cur f hf1).1
        rw [this] at hft
        cases hft
      · rcases List.mem_cons.mp hf2 with hf2 | hf3
        · have hfe2 : fe = ev.end_time := by
            rw [hf2] at hfe
            simpa [mkEventFolder] using hfe.symm
          have hfs : f.start_time = ev.start_time := by
            rw [hf2]
            exact rfl
          rcases List.mem_append.mp hg with hg1 | hg2
          · obtain ⟨_, hguard, hend, _⟩ :=
              fillGaps_shape c d ev.start_time st cur g hg1
            have hge2 : ge = g.start_time + d := by
              rw [hend] at hge
              exact (Option.some.inj hge).symm
            left
            omega
          · rcases List.mem_cons.mp hg2 with hg2 | hg3
            · rw [hg2] at hgt
              cases hgt
            · have hglb := processEvents_gap_lb c d (by omega) all_tasks evs
                _ _ g hg3 hgt
              have hmax := le_max_right
                (fillGaps c d ev.start_time st cur).2.1 (ev.end_time + c)
              right
              omega
        · obtain ⟨ev2, hm2, hfeq⟩ :=
            processEvents_folder c d all_tasks evs _ _ f hf3 hft
          have hfs : f.start_time = ev2.start_time := by
            rw [hfeq]
            exact rfl
          have hfe2 : fe = ev2.end_time := by
            rw [hfeq] at hfe
            simpa [mkEventFolder] using hfe.symm
          rcases List.mem_append.mp hg with hg1 | hg2
          · obtain ⟨_, hguard, hend, _⟩ :=
              fillGaps_shape c d ev.start_time st cur g hg1
            have hge2 : ge = g.start_time + d := by
              rw [hend] at hge
              exact (Option.some.inj hge).symm
            have hp2 : ev.start_time ≤ ev2.start_time := hp ev2 hm2
            left
            omega
          · rcases List.mem_cons.mp hg2 with hg2 | hg3
            · rw [hg2] at hgt
              cases hgt
            · exact ih hsort2 _ _ g f hg3 hf3 hgt hft ge fe hge hfe

/-- Counting the GapTask items that carry exactly `[t]` equals counting `t`
among the carried tasks, whenever every GapTask carries a single task. -/
theorem countP_gap_carrier (t : Task) : ∀ items : List TimelineItem,
    (∀ i ∈ items, i.item_type = ItemType.GAP_TASK → ∃ t0, i.nested_tasks = [t0]) →
    items.countP
        (fun i => i.item_type == ItemType.GAP_TASK && i.nested_tasks == [t])
      = (gapTasksOf items).count t := by
  intro items
  induction items with
  | nil => intro _; simp [gapTasksOf_nil]
  | cons i l ih =>
      intro h
      have hl := ih fun j hj hjt => h j (List.mem_cons_of_mem i hj) hjt
      rw [List.countP_cons, gapTasksOf_cons]
      by_cases hty : i.item_type = ItemType.GAP_TASK
      · obtain ⟨t0, ht0⟩ := h i (List.mem_cons_self i l) hty
        rw [if_pos hty, ht0, List.count_append, hl]
        by_cases het : t0 = t
        · subst het
          simp [hty, ht0, List.count_cons, Nat.add_comm]
        · have h1 : (([t0] : List Task) == [t]) = false := by
            simp [het]
          have h2 : ((t0 : Task) == t) = false := by
            simp [het]
          simp [hty, ht0, h1, h2, List.count_cons]
      · have h1 : (i.item_type == ItemType.GAP_TASK) = false := by
          simp [hty]
        rw [if_neg hty]
        simp [h1, hl]

/-- C1: a standalone task occurring once in the task list is carried by
exactly one GapTask item of the resolved timeline: none is dropped (remaining
tasks are drained after the events) and none is duplicated. -/
theorem claim_C1_standalone_task_exactly_once (now : Int)
    (events : List CalendarEventSchema) (all_tasks : List Task)
    (cushion_mins default_task_duration : Int) (t : Task)
    (hst : isStandalone t = true) (hcount : all_tasks.count t = 1) :
    (resolve_timeline now events all_tasks cushion_mins
        default_task_duration).countP
      (fun i => i.item_type == ItemType.GAP_TASK && i.nested_tasks == [t])
      = 1 := by
  have hshape : ∀ i ∈ resolve_timeline now events all_tasks cushion_mins
      default_task_duration,
      i.item_type = ItemType.GAP_TASK → ∃ t0, i.nested_tasks = [t0] :=
    fun i hi hity =>
      (processEvents_gap_shape cushion_mins default_task_duration all_tasks
        (events.insertionSort startLe) now (all_tasks.filter isStandalone)
        i hi hity).2
  rw [countP_gap_carrier t _ hshape]
  have hgap : gapTasksOf (resolve_timeline now events all_tasks cushion_mins
      default_task_duration) = all_tasks.filter isStandalone :=
    processEvents_gapTasks cushion_mins default_task_duration all_tasks
      (events.insertionSort startLe) now (all_tasks.filter isStandalone)
  rw [hgap, List.count_filter hst, hcount]

/-- Witness for C1: one standalone task, one event; the task is carried by
exactly one GapTask. -/
theorem claim_C1_standalone_task_exactly_once_witness :
    isStandalone ⟨"t1", "Write report", false, .LOCAL, none, 0, false⟩ = true
    ∧ ([(⟨"t1", "Write report", false, .LOCAL, none, 0, false⟩ : Task)]).count
        ⟨"t1", "Write report", false, .LOCAL, none, 0, false⟩ = 1
    ∧ (resolve_timeline 480 [⟨"e1", "Meet", 540, 600, "cal"⟩]
          [⟨"t1", "Write report", false, .LOCAL, none, 0, false⟩] 5 15).countP
        (fun i => i.item_type == ItemType.GAP_TASK
          && i.nested_tasks == [⟨"t1", "Write report", false, .LOCAL, none, 0, false⟩])
        = 1 :=
  ⟨by decide, by decide,
   claim_C1_standalone_task_exactly_once 480 [⟨"e1", "Meet", 540, 600, "cal"⟩]
     [⟨"t1", "Write report", false, .LOCAL, none, 0, false⟩] 5 15
     ⟨"t1", "Write report", false, .LOCAL, none, 0, false⟩
     (by decide) (by decide)⟩

/-- C2: with nonnegative cushion and task duration, and every event ending no
earlier than it starts, the resolved timeline is nondecreasing in start time
across consecutive items. -/
theorem claim_C2_output_nondecreasing (now : Int)
    (events : List CalendarEventSchema) (all_tasks : List Task)
    (cushion_mins default_task_duration : Int)
    (hc : 0 ≤ cushion_mins) (hd : 0 ≤ default_task_duration)
    (hends : ∀ e ∈ events, e.start_time ≤ e.end_time) :
    List.Chain' (fun a b => a.start_time ≤ b.start_time)
      (resolve_timeline now events all_tasks cushion_mins
        default_task_duration) := by
  have hsorted : (events.insertionSort startLe).Pairwise
      (fun a b => a.start_time ≤ b.start_time) :=
    (List.sorted_insertionSort startLe events).imp (fun h => h)
  have hends2 : ∀ e ∈ events.insertionSort startLe,
      e.start_time ≤ e.end_time :=
    fun e he => hends e ((List.mem_insertionSort startLe).mp he)
  exact processEvents_chain cushion_mins default_task_duration hc hd all_tasks
    (events.insertionSort startLe) hends2 hsorted now
    (all_tasks.filter isStandalone)

/-- Witness for C2 at a concrete run with one event and one task. -/
theorem claim_C2_output_nondecreasing_witness :
    (0 : Int) ≤ 5 ∧ (0 : Int) ≤ 15
    ∧ (∀ e ∈ [(⟨"e1", "Meet", 540, 600, "cal"⟩ : CalendarEventSchema)],
        e.start_time ≤ e.end_time)
    ∧ List.Chain' (fun a b => a.start_time ≤ b.start_time)
        (resolve_timeline 480 [⟨"e1", "Meet", 540, 600, "cal"⟩]
          [⟨"t1", "Write report", false, .LOCAL, none, 0, false⟩] 5 15) :=
  ⟨by decide, by decide, by decide,
   claim_C2_output_nondecreasing 480 [⟨"e1", "Meet", 540, 600, "cal"⟩]
     [⟨"t1", "Write report", false, .LOCAL, none, 0, false⟩] 5 15
     (by decide) (by decide) (by decide)⟩

/-- C3: with nonnegative cushion and task duration, and every event ending no
earlier than it starts, a GapTask item never overlaps an EventFolder item:
they are separated by at least the cushion on one side. -/
theorem claim_C3_gap_never_overlaps_event (now : Int)
    (events : List CalendarEventSchema) (all_tasks : List Task)
    (cushion_mins default_task_duration : Int)
    (hc : 0 ≤ cushion_mins) (hd : 0 ≤ default_task_duration)
    (hends : ∀ e ∈ events, e.start_time ≤ e.end_time)
    (g f : TimelineItem)
    (hg : g ∈ resolve_timeline now events all_tasks cushion_mins
      default_task_duration)
    (hf : f ∈ resolve_timeline now events all_tasks cushion_mins
      default_task_duration)
    (hgt : g.item_type = ItemType.GAP_TASK)
    (hft : f.item_type = ItemType.EVENT_FOLDER)
    (ge fe : Int) (hge : g.end_time = some ge) (hfe : f.end_time = some fe) :
    ge + cushion_mins ≤ f.start_time ∨ fe + cushion_mins ≤ g.start_time := by
  have hsorted : (events.insertionSort startLe).Pairwise
      (fun a b => a.start_time ≤ b.start_time) :=
    (List.sorted_insertionSort startLe events).imp (fun h => h)
  exact processEvents_disjoint cushion_mins default_task_duration hc hd
    all_tasks (events.insertionSort startLe) hsorted now
    (all_tasks.filter isStandalone) g f hg hf hgt hft ge fe hge hfe

/-- Witness for C3: in the concrete run the GapTask `[480, 495)` and the
EventFolder `[540, 600]` are cushion-separated. -/
theorem claim_C3_gap_never_overlaps_event_witness :
    (⟨ItemType.GAP_TASK, "Write report", 480, some 495,
        [⟨"t1", "Write report", false, .LOCAL, none, 0, false⟩], none⟩ : TimelineItem)
      ∈ resolve_timeline 480 [⟨"e1", "Meet", 540, 600, "cal"⟩]
          [⟨"t1", "Write report", false, .LOCAL, none, 0, false⟩] 5 15
    ∧ (⟨ItemType.EVENT_FOLDER, "Meet", 540, some 600, [], some "e1"⟩ : TimelineItem)
      ∈ resolve_timeline 480 [⟨"e1", "Meet", 540, 600, "cal"⟩]
          [⟨"t1", "Write report", false, .LOCAL, none, 0, false⟩] 5 15
    ∧ ((495 : Int) + 5 ≤ 540 ∨ (600 : Int) + 5 ≤ 480) :=
  ⟨by decide, by decide,
   claim_C3_gap_never_overlaps_event 480 [⟨"e1", "Meet", 540, 600, "cal"⟩]
     [⟨"t1", "Write report", false, .LOCAL, none, 0, false⟩] 5 15
     (by decide) (by decide) (by decide)
     ⟨ItemType.GAP_TASK, "Write report", 480, some 495,
       [⟨"t1", "Write report", false, .LOCAL, none, 0, false⟩], none⟩
     ⟨ItemType.EVENT_FOLDER, "Meet", 540, some 600, [], some "e1"⟩
     (by decide) (by decide) rfl rfl 495 600 rfl rfl⟩

/-- C10: every EventFolder item of the resolved timeline belongs to one of the
input events and carries exactly the input tasks whose parent_event_id equals
that event's id, with no completed-task filtering. -/
theorem claim_C10_folder_nested_tasks (now : Int)
    (events : List CalendarEventSchema) (all_tasks : List Task)
    (cushion_mins default_task_duration : Int) (it : TimelineItem)
    (hmem : it ∈ resolve_timeline now events all_tasks cushion_mins
      default_task_duration)
    (hty : it.item_type = ItemType.EVENT_FOLDER) :
    ∃ ev, ev ∈ events ∧ it.source_id = some ev.id
      ∧ it.nested_tasks
          = all_tasks.filter (fun t => t.parent_event_id == some ev.id) := by
  obtain ⟨ev, hev, heq⟩ := processEvents_folder cushion_mins
    default_task_duration all_tasks (events.insertionSort startLe) now
    (all_tasks.filter isStandalone) it hmem hty
  refine ⟨ev, (List.mem_insertionSort startLe).mp hev, ?_, ?_⟩
  · rw [heq]
    exact rfl
  · rw [heq]
    exact rfl

/-- Witness for C10: the folder of the only event carries the completed
nested task whose parent is that event. -/
theorem claim_C10_folder_nested_tasks_witness :
    (⟨ItemType.EVENT_FOLDER, "Meet", 540, some 600,
        [⟨"t2", "Prep notes", true, .LOCAL, some "e1", 0, true⟩], some "e1"⟩ : TimelineItem)
      ∈ resolve_timeline 480 [⟨"e1", "Meet", 540, 600, "cal"⟩]
          [⟨"t2", "Prep notes", true, .LOCAL, some "e1", 0, true⟩] 5 15
    ∧ ∃ ev, ev ∈ [(⟨"e1", "Meet", 540, 600, "cal"⟩ : CalendarEventSchema)]
        ∧ (⟨ItemType.EVENT_FOLDER, "Meet", 540, some 600,
            [⟨"t2", "Prep notes", true, .LOCAL, some "e1", 0, true⟩],
            some "e1"⟩ : TimelineItem).source_id = some ev.id
        ∧ (⟨ItemType.EVENT_FOLDER, "Meet", 540, some 600,
            [⟨"t2", "Prep notes", true, .LOCAL, some "e1", 0, true⟩],
            some "e1"⟩ : TimelineItem).nested_tasks
            = ([⟨"t2", "Prep notes", true, .LOCAL, some "e1", 0, true⟩] : List Task).filter
                (fun t => t.parent_event_id == some ev.id) :=
  ⟨by decide,
   claim_C10_folder_nested_tasks 480 [⟨"e1", "Meet", 540, 600, "cal"⟩]
     [⟨"t2", "Prep notes", true, .LOCAL, some "e1", 0, true⟩] 5 15
     ⟨ItemType.EVENT_FOLDER, "Meet", 540, some 600,
       [⟨"t2", "Prep notes", true, .LOCAL, some "e1", 0, true⟩], some "e1"⟩
     (by decide) rfl⟩

end Scheduler

end CarpeDiem
